import Mathlib

set_option maxHeartbeats 1000000

namespace Arch

/-- An interface of a resource (model.py `Interface`).
Fields never read by the embedded operations (description, topic, metadata)
are elided; `fullPath` is the computed field assigned during indexing. -/
structure Interface where
  id : String
  protocol : String
  direction : String
  fullPath : String := ""
deriving DecidableEq, Repr

/-- A resource in the architecture tree (model.py `Resource`).
`fullPath` is the computed field assigned during indexing; the Python
`parent` back-reference is represented structurally (walk functions pass
parent data down).  Metadata-only fields are elided. -/
inductive Resource : Type where
  | mk (id name type : String) (abstract : Bool)
       (interfaces : List Interface) (children : List Resource)
       (fullPath : String)
deriving Repr

mutual

/-- Structural (field-wise) equality test for resources, mirroring the
dataclass `__eq__` used by Python's `in` / `not in` checks. -/
def Resource.beq : Resource → Resource → Bool
  | .mk i1 n1 t1 a1 f1 c1 p1, .mk i2 n2 t2 a2 f2 c2 p2 =>
    decide (i1 = i2) && decide (n1 = n2) && decide (t1 = t2) &&
    decide (a1 = a2) && decide (f1 = f2) && Resource.listBeq c1 c2 &&
    decide (p1 = p2)

def Resource.listBeq : List Resource → List Resource → Bool
  | [], [] => true
  | x :: xs, y :: ys => Resource.beq x y && Resource.listBeq xs ys
  | _, _ => false

end

mutual

theorem Resource.beq_iff : ∀ a b : Resource, Resource.beq a b = true ↔ a = b
  | .mk i1 n1 t1 a1 f1 c1 p1, .mk i2 n2 t2 a2 f2 c2 p2 => by
    simp only [Resource.beq, Bool.and_eq_true, decide_eq_true_iff,
      Resource.listBeq_iff c1 c2, Resource.mk.injEq]
    tauto

theorem Resource.listBeq_iff : ∀ a b : List Resource,
    Resource.listBeq a b = true ↔ a = b
  | [], [] => by simp [Resource.listBeq]
  | [], _ :: _ => by simp [Resource.listBeq]
  | _ :: _, [] => by simp [Resource.listBeq]
  | x :: xs, y :: ys => by
    simp only [Resource.listBeq, Bool.and_eq_true, Resource.beq_iff x y,
      Resource.listBeq_iff xs ys, List.cons.injEq]

end

instance : DecidableEq Resource := fun a b =>
  decidable_of_iff _ (Resource.beq_iff a b)

def Resource.id : Resource → String
  | .mk i _ _ _ _ _ _ => i

def Resource.name : Resource → String
  | .mk _ n _ _ _ _ _ => n

def Resource.type : Resource → String
  | .mk _ _ t _ _ _ _ => t

def Resource.abstract : Resource → Bool
  | .mk _ _ _ a _ _ _ => a

def Resource.interfaces : Resource → List Interface
  | .mk _ _ _ _ ifs _ _ => ifs

def Resource.children : Resource → List Resource
  | .mk _ _ _ _ _ cs _ => cs

def Resource.fullPath : Resource → String
  | .mk _ _ _ _ _ _ fp => fp

/-- Embeds `f"{parent_path}.{resource.id}" if parent_path else resource.id`
(path_resolver.py line 62). -/
def joinPath (parentPath id : String) : String :=
  if parentPath = "" then id else parentPath ++ "." ++ id

mutual
/-- Path assignment performed by `PathResolver._build_indexes`
(path_resolver.py lines 60-78): sets `full_path` on the resource and each
of its interfaces, then recurses into children with this resource's path. -/
def assignPaths (parentPath : String) : Resource → Resource
  | .mk i n t a ifs cs _ =>
    let fp := joinPath parentPath i
    Resource.mk i n t a
      (ifs.map fun itf => { itf with fullPath := fp ++ "." ++ itf.id })
      (assignPathsList fp cs) fp

def assignPathsList (parentPath : String) : List Resource → List Resource
  | [] => []
  | c :: cs => assignPaths parentPath c :: assignPathsList parentPath cs
end

/-- A relationship between two resources/interfaces (model.py
`Relationship`); tags/metadata elided (never read by validator or
generator). -/
structure Relationship where
  from_ref : String
  to_ref : String
  via : Option String := none
  description : Option String := none
deriving DecidableEq, Repr

/-- Python truthiness of an `Optional[str]` field (`if rel.via:`):
present and nonempty. -/
def optTruthy : Option String → Bool
  | some s => s ≠ ""
  | none => false

mutual

/-- A step in a sequence (model.py `Step`); fields not read by the
validator (action, condition, note) are kept only where the embedded
operations read them.  `action` and `condition` are elided here because
the validator never reads them. -/
inductive Step : Type where
  | mk (from_ref to_ref : String) (parallel : List Step)
       (alt : List AltBlock)

/-- An alternative flow block (model.py `AlternativeBlock`). -/
inductive AltBlock : Type where
  | mk (condition : String) (steps : List Step)

end

def Step.from_ref : Step → String
  | .mk f _ _ _ => f

def Step.to_ref : Step → String
  | .mk _ t _ _ => t

def Step.parallel : Step → List Step
  | .mk _ _ p _ => p

def Step.alt : Step → List AltBlock
  | .mk _ _ _ a => a

def AltBlock.condition : AltBlock → String
  | .mk c _ => c

def AltBlock.steps : AltBlock → List Step
  | .mk _ s => s

/-- A sequence of runtime interactions (model.py `Sequence`). -/
structure Sequence where
  id : String
  name : String
  steps : List Step

/-- A state of a state machine (model.py `State`); description/tags/
metadata elided. -/
structure State where
  id : String
  name : String
deriving DecidableEq, Repr

/-- A transition of a state machine (model.py `Transition`); trigger/
guard/action elided (only rendered, never validated). -/
structure Transition where
  from_state : String
  to_state : String
  sequence : Option String := none
deriving DecidableEq, Repr

/-- A state machine (model.py `StateMachine`). -/
structure StateMachine where
  id : String
  name : String
  resource : String
  initial : String
  states : List State
  transitions : List Transition
deriving DecidableEq, Repr

/-- The complete model (model.py `ArchitectureModel`).  The index
dictionaries are not stored here: they are recomputed by `buildIndex`
from the path-assigned tree, mirroring `PathResolver._build_indexes`
repopulating `model._resource_index` / `model._interface_index`. -/
structure ArchitectureModel where
  resources : List Resource := []
  relationships : List Relationship := []
  sequences : List Sequence := []
  state_machines : List StateMachine := []

/-- The model after `PathResolver.__init__` ran on it: every resource and
interface has its `full_path` assigned (path_resolver.py lines 57-82). -/
def indexModel (m : ArchitectureModel) : ArchitectureModel :=
  { m with resources := assignPathsList "" m.resources }

mutual

/-- All nodes of a resource subtree in `walk_tree` order (model.py
lines 171-176): the resource itself, then each child subtree. -/
def allNodes : Resource → List Resource
  | .mk i n t a ifs cs fp =>
    Resource.mk i n t a ifs cs fp :: allNodesList cs

def allNodesList : List Resource → List Resource
  | [] => []
  | c :: cs => allNodes c ++ allNodesList cs

end

/-- All nodes of every root of a model, in walk order. -/
def allModelNodes (m : ArchitectureModel) : List Resource :=
  allNodesList m.resources

mutual

/-- The full dotted paths computed while walking a subtree, in the order
`_build_indexes` (and `_validate_unique_ids`) visits them. -/
def walkedPaths (parentPath : String) : Resource → List String
  | .mk i _ _ _ _ cs _ =>
    let fp := joinPath parentPath i
    fp :: walkedPathsList fp cs

def walkedPathsList (parentPath : String) : List Resource → List String
  | [] => []
  | c :: cs => walkedPaths parentPath c ++ walkedPathsList parentPath cs

end

/-- All resource full paths computed while indexing a model. -/
def modelWalkedPaths (m : ArchitectureModel) : List String :=
  walkedPathsList "" m.resources

/-- Python `dict` assignment `d[k] = v`: an existing key keeps its
position and gets the new value (later assignments silently overwrite);
a new key is appended in insertion order. -/
def dictInsert {α : Type} (d : List (String × α)) (k : String) (v : α) :
    List (String × α) :=
  if d.any (fun p => p.1 = k) then
    d.map (fun p => if p.1 = k then (k, v) else p)
  else
    d ++ [(k, v)]

/-- Python `d.get(k)`: the value stored at `k`, if any. -/
def dictGet {α : Type} (d : List (String × α)) (k : String) : Option α :=
  (d.find? (fun p => p.1 = k)).map (fun p => p.2)

mutual

/-- The `(full_path, resource)` entries indexed by `_build_indexes`
(path_resolver.py line 66), in visit order, for one subtree of the
already path-assigned tree. -/
def resourceEntries : Resource → List (String × Resource)
  | .mk i n t a ifs cs fp =>
    (fp, Resource.mk i n t a ifs cs fp) :: resourceEntriesList cs

def resourceEntriesList : List Resource → List (String × Resource)
  | [] => []
  | c :: cs => resourceEntries c ++ resourceEntriesList cs

end

mutual

/-- The `(full_path, interface)` entries indexed by `_build_indexes`
(path_resolver.py lines 69-73), in visit order, for one subtree of the
already path-assigned tree. -/
def interfaceEntries : Resource → List (String × Interface)
  | .mk _ _ _ _ ifs cs _ =>
    ifs.map (fun itf => (itf.fullPath, itf)) ++ interfaceEntriesList cs

def interfaceEntriesList : List Resource → List (String × Interface)
  | [] => []
  | c :: cs => interfaceEntries c ++ interfaceEntriesList cs

end

/-- The two lookup dictionaries built by `PathResolver._build_indexes`. -/
structure ModelIndex where
  resourceIndex : List (String × Resource)
  interfaceIndex : List (String × Interface)

/-- Embeds `PathResolver.__init__` / `_build_indexes`: assign full paths, then
populate both dictionaries in walk order.  Note that a colliding full
path simply overwrites the earlier dictionary entry — the walk has no
error channel and always completes. -/
def buildIndex (m : ArchitectureModel) : ModelIndex :=
  let assigned := assignPathsList "" m.resources
  { resourceIndex :=
      (resourceEntriesList assigned).foldl
        (fun d e => dictInsert d e.1 e.2) []
    interfaceIndex :=
      (interfaceEntriesList assigned).foldl
        (fun d e => dictInsert d e.1 e.2) [] }

/-- Embeds `PathResolver.resolve_resource`: dictionary lookup. -/
def resolveResource (idx : ModelIndex) (path : String) : Option Resource :=
  dictGet idx.resourceIndex path

/-- Embeds `PathResolver.resolve_interface`: dictionary lookup. -/
def resolveInterface (idx : ModelIndex) (path : String) : Option Interface :=
  dictGet idx.interfaceIndex path

/-- Result of resolving a path (path_resolver.py `ResolutionResult`). -/
structure ResolutionResult where
  path : String
  resource : Option Resource := none
  interface : Option Interface := none
  is_resource : Bool := false
  is_interface : Bool := false
deriving DecidableEq, Repr

/-- Embeds `ResolutionResult.found`: whether the path resolved to something. -/
def ResolutionResult.found (r : ResolutionResult) : Bool :=
  r.resource.isSome || r.interface.isSome

/-- Embeds `".".join(path.split(".")[:-1])` (path_resolver.py line 137): the
path with its last dot-separated segment removed ("" when there is no
dot).  Implemented character-wise: drop the suffix after the final dot
together with that dot. -/
def stripLastSegment (p : String) : String :=
  match (p.data.reverse).dropWhile (fun c => c ≠ '.') with
  | [] => ""
  | _ :: rest => String.mk rest.reverse

/-- Embeds `PathResolver.resolve` (path_resolver.py lines 116-156): try the
interface index first; on a hit, derive the owning resource by stripping
the last segment; otherwise try a direct resource lookup; otherwise
return a not-found result. -/
def resolve (idx : ModelIndex) (path : String) : ResolutionResult :=
  match resolveInterface idx path with
  | some itf =>
    { path := path
      resource := resolveResource idx (stripLastSegment path)
      interface := some itf
      is_interface := true }
  | none =>
    match resolveResource idx path with
    | some r => { path := path, resource := some r, is_resource := true }
    | none => { path := path }

/-- Validation issue severity (validator.py `Severity`). -/
inductive Severity : Type where
  | error
  | warning
deriving DecidableEq, Repr

/-- A single validation issue (validator.py `ValidationIssue`).
`file_path`/`line` are elided: the validator never sets them.
Apostrophes that appear in the Python message strings are elided. -/
structure ValidationIssue where
  severity : Severity
  message : String
  path : Option String := none
  rule : Option String := none
deriving DecidableEq, Repr

/-- Result of validating a model (validator.py `ValidationResult`). -/
structure ValidationResult where
  valid : Bool
  errors : List ValidationIssue := []
  warnings : List ValidationIssue := []
deriving DecidableEq, Repr

/-- Embeds `ValidationResult.add_error`: append the issue and clear `valid`. -/
def ValidationResult.addError (r : ValidationResult) (i : ValidationIssue) :
    ValidationResult :=
  { r with errors := r.errors ++ [i], valid := false }

/-- Embeds `ValidationResult.add_warning`: append the issue; `valid` untouched. -/
def ValidationResult.addWarning (r : ValidationResult) (i : ValidationIssue) :
    ValidationResult :=
  { r with warnings := r.warnings ++ [i] }

/-- Dispatch one issue to `add_error` or `add_warning` by severity; the
validator's rules are embedded as the ordered issue lists they emit, and
the run is the fold of this dispatch over those lists, mirroring the
sequence of `add_error` / `add_warning` calls the Python code makes. -/
def ValidationResult.record (r : ValidationResult) (i : ValidationIssue) :
    ValidationResult :=
  match i.severity with
  | .error => r.addError i
  | .warning => r.addWarning i

/-- Issue constructor used for every `add_error(message, path=…, rule=…)`
call (all validator call sites pass both keyword arguments). -/
def errIssue (message path rule : String) : ValidationIssue :=
  { severity := .error, message := message, path := some path,
    rule := some rule }

/-- Issue constructor used for every `add_warning(message, path=…, rule=…)`
call. -/
def warnIssue (message path rule : String) : ValidationIssue :=
  { severity := .warning, message := message, path := some path,
    rule := some rule }

/-- Duplicate-sibling-ID errors for the children of one resource
(validator.py lines 110-118): a `child_ids` dictionary keyed by id, an
error each time an id is already present. -/
def sibDupIssues (cur : String) : List Resource → List String →
    List ValidationIssue
  | [], _ => []
  | c :: cs, seenIds =>
    (if c.id ∈ seenIds then
      [errIssue ("Duplicate sibling ID " ++ c.id ++ " under " ++ cur)
        cur "unique-ids"]
    else []) ++ sibDupIssues cur cs (seenIds ++ [c.id])

mutual

/-- Embeds `_validate_unique_ids.check_resource` (validator.py lines 96-122):
recompute the full path, emit a duplicate-path error if it was already
seen, record it as seen, emit duplicate-sibling errors, then recurse
into the children threading the seen-path set. -/
def uniqueIdsGo (seen : List String) (parentPath : String) :
    Resource → List String × List ValidationIssue
  | .mk i _ _ _ _ cs _ =>
    let cur := joinPath parentPath i
    let dup := if cur ∈ seen then
        [errIssue ("Duplicate resource path: " ++ cur) cur "unique-ids"]
      else []
    let sib := sibDupIssues cur cs []
    let res := uniqueIdsGoList (seen ++ [cur]) cur cs
    (res.1, dup ++ sib ++ res.2)

def uniqueIdsGoList (seen : List String) (parentPath : String) :
    List Resource → List String × List ValidationIssue
  | [] => (seen, [])
  | c :: cs =>
    let r1 := uniqueIdsGo seen parentPath c
    let r2 := uniqueIdsGoList r1.1 parentPath cs
    (r2.1, r1.2 ++ r2.2)

end

/-- Embeds `_validate_unique_ids` over all top-level resources. -/
def uniqueIdsIssues (m : ArchitectureModel) : List ValidationIssue :=
  (uniqueIdsGoList [] "" m.resources).2

mutual

/-- Embeds `_validate_abstract_resources.check_resource` (validator.py
lines 134-144): error for an abstract resource without children. -/
def abstractGo : Resource → List ValidationIssue
  | .mk _ _ _ a _ cs fp =>
    (if a && cs.isEmpty then
      [errIssue ("Abstract resource " ++ fp ++ " has no children")
        fp "abstract-resources"]
    else []) ++ abstractGoList cs

def abstractGoList : List Resource → List ValidationIssue
  | [] => []
  | c :: cs => abstractGo c ++ abstractGoList cs

end

/-- Embeds `_validate_abstract_resources` over all top-level resources. -/
def abstractResourceIssues (m : ArchitectureModel) : List ValidationIssue :=
  abstractGoList m.resources

/-- The `via` component of `_validate_relationship_references`
(validator.py lines 176-183): nothing when `rel.via` is not truthy
(absent or empty), otherwise one error when it does not resolve. -/
def viaIssues (idx : ModelIndex) : Option String → List ValidationIssue
  | some v =>
    if v = "" then []
    else if (resolve idx v).found then []
    else [errIssue ("Relationship via reference not found: " ++ v)
      v "relationship-references"]
  | none => []

/-- The errors `_validate_relationship_references` emits for one
relationship (validator.py lines 156-183): one per unresolved
`from_ref` / `to_ref` / truthy `via`. -/
def relationshipIssues (idx : ModelIndex) (rel : Relationship) :
    List ValidationIssue :=
  (if (resolve idx rel.from_ref).found then [] else
    [errIssue ("Relationship from reference not found: " ++ rel.from_ref)
      rel.from_ref "relationship-references"]) ++
  (if (resolve idx rel.to_ref).found then [] else
    [errIssue ("Relationship to reference not found: " ++ rel.to_ref)
      rel.to_ref "relationship-references"]) ++
  viaIssues idx rel.via

/-- Embeds `_validate_relationship_references` over all relationships. -/
def relationshipRefIssues (m : ArchitectureModel) (idx : ModelIndex) :
    List ValidationIssue :=
  (m.relationships.map (relationshipIssues idx)).flatten

/-- Embeds `f"{step_context}step[{idx}]"` (validator.py line 228). -/
def stepCtx (ctx : String) (i : Nat) : String :=
  ctx ++ "step[" ++ toString i ++ "]"

/-- The `from` endpoint check of one step (validator.py lines 231-238):
the literal "user" actor is exempt; otherwise an unresolved reference is
an error. -/
def fromRefIssues (idx : ModelIndex) (sid ctx f : String) :
    List ValidationIssue :=
  if f = "user" then []
  else if (resolve idx f).found then []
  else [errIssue ("Sequence " ++ sid ++ " " ++ ctx ++
    " from reference not found: " ++ f) f "sequence-references"]

/-- The `to` endpoint check of one step (validator.py lines 241-247):
no exemption — an unresolved reference is always an error. -/
def toRefIssues (idx : ModelIndex) (sid ctx t : String) :
    List ValidationIssue :=
  if (resolve idx t).found then []
  else [errIssue ("Sequence " ++ sid ++ " " ++ ctx ++
    " to reference not found: " ++ t) t "sequence-references"]

mutual

/-- Embeds `_validate_steps` (validator.py lines 225-260): per step, check the
two endpoints, then recurse into `parallel` steps and each `alt` block,
with the derived context strings. -/
def validateSteps (idx : ModelIndex) (sid ctx : String) (i : Nat) :
    List Step → List ValidationIssue
  | [] => []
  | s :: rest =>
    stepIssues idx sid (stepCtx ctx i) s ++
    validateSteps idx sid ctx (i + 1) rest

def stepIssues (idx : ModelIndex) (sid ctx : String) :
    Step → List ValidationIssue
  | .mk f t par alts =>
    fromRefIssues idx sid ctx f ++ toRefIssues idx sid ctx t ++
    validateSteps idx sid (ctx ++ ".parallel.") 0 par ++
    altIssuesList idx sid ctx 0 alts

def altIssuesList (idx : ModelIndex) (sid ctx : String) (i : Nat) :
    List AltBlock → List ValidationIssue
  | [] => []
  | .mk _ steps :: rest =>
    validateSteps idx sid (ctx ++ ".alt[" ++ toString i ++ "].") 0 steps ++
    altIssuesList idx sid ctx (i + 1) rest

end

/-- Embeds `_validate_sequence_references` over all sequences (step context
starts empty). -/
def sequenceRefIssues (m : ArchitectureModel) (idx : ModelIndex) :
    List ValidationIssue :=
  (m.sequences.map (fun s => validateSteps idx s.id "" 0 s.steps)).flatten

/-- Embeds `_validate_state_machine_references` (validator.py lines 262-319). -/
def smRefIssues (m : ArchitectureModel) (idx : ModelIndex) :
    List ValidationIssue :=
  let sequenceIds : List String := m.sequences.map (fun s => s.id)
  (m.state_machines.map (fun sm =>
    let stateIds : List String := sm.states.map (fun s => s.id)
    (if (resolve idx sm.resource).found then [] else
      [errIssue ("State machine " ++ sm.id ++ " resource not found: " ++
        sm.resource) sm.resource "state-machine-references"]) ++
    (if sm.initial ∈ stateIds then [] else
      [errIssue ("State machine " ++ sm.id ++ " initial state " ++
        sm.initial ++ " not found in states") sm.id
        "state-machine-references"]) ++
    (sm.transitions.map (fun tr =>
      (if tr.from_state ∈ stateIds then [] else
        [errIssue ("State machine " ++ sm.id ++ " transition from state " ++
          tr.from_state ++ " not found") sm.id
          "state-machine-references"]) ++
      (if tr.to_state ∈ stateIds then [] else
        [errIssue ("State machine " ++ sm.id ++ " transition to state " ++
          tr.to_state ++ " not found") sm.id
          "state-machine-references"]) ++
      (match tr.sequence with
       | some s =>
         if s = "" then []
         else if s ∈ sequenceIds then []
         else [errIssue ("State machine " ++ sm.id ++
           " transition references unknown sequence: " ++ s) sm.id
           "state-machine-references"]
       | none => []))).flatten)).flatten

/-- Embeds `_validate_state_machine_anchors` (validator.py lines 321-336). -/
def anchorIssues (m : ArchitectureModel) (idx : ModelIndex) :
    List ValidationIssue :=
  (m.state_machines.map (fun sm =>
    let r := resolve idx sm.resource
    if r.found && r.is_resource then
      match r.resource with
      | some res =>
        if res.abstract then
          [errIssue ("State machine " ++ sm.id ++
            " anchored to abstract resource: " ++ sm.resource)
            sm.resource "state-machine-anchoring"]
        else []
      | none => []
    else [])).flatten

/-- The `outgoing` adjacency built by `_validate_state_transitions`
(validator.py lines 347-354): declared state ids map to the `to_state`s
of their transitions in order; unknown ids map to the empty list (the
Python `outgoing.get(current, [])` default). -/
def smOutgoing (sm : StateMachine) (sid : String) : List String :=
  if sid ∈ sm.states.map (fun s => s.id) then
    (sm.transitions.filter (fun tr => tr.from_state = sid)).map
      (fun tr => tr.to_state)
  else []

/-- The BFS work loop of `_validate_state_transitions` (validator.py
lines 357-364): pop the queue head, skip it if already reached,
otherwise mark it reached and enqueue its successors.  The fuel only
bounds the iteration count: at most `1 + transitions` elements ever
enter the queue (the initial state once, plus each declared state's
outgoing list at most once, and those lists are disjoint sublists of
the transitions), so the fuel below is never exhausted. -/
def bfsLoop (out : String → List String) :
    Nat → List String → List String → List String
  | 0, _, reach => reach
  | _ + 1, [], reach => reach
  | fuel + 1, c :: rest, reach =>
    if c ∈ reach then bfsLoop out fuel rest reach
    else bfsLoop out fuel (rest ++ out c) (reach ++ [c])

/-- The `reachable` set computed by `_validate_state_transitions` for
one state machine, in first-reached order. -/
def smReachable (sm : StateMachine) : List String :=
  bfsLoop (smOutgoing sm) (sm.states.length + sm.transitions.length + 2)
    [sm.initial] []

/-- Embeds `_validate_state_transitions` (validator.py lines 338-373): a
warning for every declared state not reached from the initial state. -/
def stateTransitionIssues (m : ArchitectureModel) : List ValidationIssue :=
  (m.state_machines.map (fun sm =>
    let reach := smReachable sm
    (sm.states.filter (fun s =>
      decide (s.id ∉ reach ∧ s.id ≠ sm.initial))).map (fun s =>
      warnIssue ("State machine " ++ sm.id ++ " state " ++ s.id ++
        " is not reachable from initial state " ++ sm.initial)
        sm.id "state-transitions"))).flatten

/-- Embeds `_check_orphan_interfaces` (validator.py lines 185-212): warn for
every indexed interface path not used by any relationship endpoint that
resolves to an interface.  The Python code iterates a `set` of the index
keys; the keys are already unique, and we fix the deterministic index
insertion order as the iteration order. -/
def orphanInterfaceIssues (m : ArchitectureModel) (idx : ModelIndex) :
    List ValidationIssue :=
  let used := (m.relationships.map (fun rel =>
    (if (resolve idx rel.from_ref).is_interface then [rel.from_ref]
     else []) ++
    (if (resolve idx rel.to_ref).is_interface then [rel.to_ref]
     else []))).flatten
  ((idx.interfaceIndex.map (fun p => p.1)).filter (fun p =>
    decide (p ∉ used))).map (fun p =>
    warnIssue ("Interface " ++ p ++ " is not used in any relationships")
      p "orphan-interfaces")

/-- Embeds `_check_orphan_sequences` (validator.py lines 375-395): warn for
every sequence not referenced by any state machine transition. -/
def orphanSequenceIssues (m : ArchitectureModel) : List ValidationIssue :=
  let used := (m.state_machines.map (fun sm =>
    (sm.transitions.map (fun tr =>
      match tr.sequence with
      | some s => if s = "" then [] else [s]
      | none => [])).flatten)).flatten
  (m.sequences.filter (fun s => decide (s.id ∉ used))).map (fun s =>
    warnIssue ("Sequence " ++ s.id ++
      " is not referenced by any state machine transition")
      s.id "orphan-sequences")

/-- The ordered list of all issues `ArchitectureValidator.validate`
records, rule by rule in call order (validator.py lines 67-86), for the
already-indexed model `m` and its indexes `idx`. -/
def allIssues (m : ArchitectureModel) (idx : ModelIndex) :
    List ValidationIssue :=
  uniqueIdsIssues m ++ abstractResourceIssues m ++
  relationshipRefIssues m idx ++ sequenceRefIssues m idx ++
  smRefIssues m idx ++ anchorIssues m idx ++
  stateTransitionIssues m ++ orphanInterfaceIssues m idx ++
  orphanSequenceIssues m

/-- Embeds `ArchitectureValidator(model).validate()`: the constructor runs
`PathResolver(model)`, which assigns full paths (mutating the model) and
builds the indexes; `validate` then records every rule's issues in order
into a fresh `ValidationResult(valid=True)`. -/
def validate (m : ArchitectureModel) : ValidationResult :=
  let indexed := indexModel m
  let idx := buildIndex m
  (allIssues indexed idx).foldl ValidationResult.record { valid := true }

mutual

/-- Embeds `walk_tree` entries enriched with the data the diagram generator
reads off the mutated tree: the node, its depth, and its parent's
`abstract` flag (`none` at a root, where `res.parent` is `None`). -/
def walkEntries (depth : Nat) (parentAbstract : Option Bool) :
    Resource → List (Resource × Nat × Option Bool)
  | .mk i n t a ifs cs fp =>
    (Resource.mk i n t a ifs cs fp, depth, parentAbstract) ::
      walkEntriesList (depth + 1) (some a) cs

def walkEntriesList (depth : Nat) (parentAbstract : Option Bool) :
    List Resource → List (Resource × Nat × Option Bool)
  | [] => []
  | c :: cs =>
    walkEntries depth parentAbstract c ++
    walkEntriesList depth parentAbstract cs

end

/-- The concatenated `walk_tree` traversals of every root
(mermaid.py `for resource in model.resources: for res, depth in
resource.walk_tree()`). -/
def modelWalkEntries (m : ArchitectureModel) : List (Resource × Nat × Option Bool) :=
  walkEntriesList 0 none m.resources

/-- Embeds `if res not in nodes: nodes.append(res)` (mermaid.py lines 63-68),
with the dataclass structural equality. -/
def dedupAppend (acc : List Resource) (r : Resource) : List Resource :=
  if r ∈ acc then acc else acc ++ [r]

/-- The node-selection component of `_collect_nodes_for_view`
(mermaid.py lines 51-81); the function's second component (the
relationship filter, lines 83-120) is not embedded — no claim reads it.
The zoom dispatch mirrors the if/elif chain, including the final
show-everything default. -/
def collectNodesForView (m : ArchitectureModel) (zoom : String) :
    List Resource :=
  if zoom = "landscape" then m.resources
  else if zoom = "domain" then
    (modelWalkEntries m).foldl
      (fun acc e =>
        if e.2.1 = 0 || e.1.abstract then dedupAppend acc e.1
        else if e.2.2 = some true then dedupAppend acc e.1
        else acc) []
  else if zoom = "service" then
    ((modelWalkEntries m).filter (fun e => !e.1.abstract)).map
      (fun e => e.1)
  else
    (modelWalkEntries m).map (fun e => e.1)

/-- The interface paths added to the visible set for the service view
(mermaid.py lines 87-92). -/
def serviceInterfacePaths (nodes : List Resource) : List String :=
  (nodes.map (fun n =>
    n.interfaces.map (fun itf => n.fullPath ++ "." ++ itf.id))).flatten

/-- Embeds `_sanitize_id` (mermaid.py lines 265-276):
`path.replace(".", "_").replace("-", "_")`, character-wise (both
patterns are single characters and neither matches the replacement). -/
def sanitizeId (path : String) : String :=
  String.mk (path.data.map (fun c => if c = '.' || c = '-' then '_' else c))

/-- Embeds `_format_node_label` (mermaid.py lines 238-262); `include_tech` is
always `False` at every call site and is elided. -/
def formatNodeLabel (r : Resource) (includeType : Bool) : String :=
  if includeType then r.name ++ "<br/>" ++ r.type else r.name

/-- The node-rendering loop of `_render_mermaid_graph` for the
landscape/service (non-domain) branch (mermaid.py lines 150-167):
skip a node whose sanitized id was already seen, otherwise emit its
line and, for the service view, one node line and one edge line per
interface. -/
def renderNodeLines (zoom : String) :
    List Resource → List String → List String
  | [], _ => []
  | r :: rest, seen =>
    let nodeId := sanitizeId r.fullPath
    if nodeId ∈ seen then renderNodeLines zoom rest seen
    else
      ("    " ++ nodeId ++ "[" ++
        formatNodeLabel r (zoom ≠ "landscape") ++ "]") ::
      ((if zoom = "service" && !r.interfaces.isEmpty then
          (r.interfaces.map (fun itf =>
            let ifaceId := sanitizeId (r.fullPath ++ "." ++ itf.id)
            ["    " ++ ifaceId ++ "[" ++ itf.id ++ "<br/>" ++
               itf.protocol ++ "]",
             "    " ++ nodeId ++ " --> " ++ ifaceId])).flatten
        else []) ++
       renderNodeLines zoom rest (seen ++ [nodeId]))

/-- The relationship-rendering loop of `_render_mermaid_graph`
(mermaid.py lines 173-188), including the Python truthiness of
`rel.description` and `rel.via`. -/
def renderRelLines (rels : List Relationship) : List String :=
  (rels.map (fun rel =>
    let fromId := sanitizeId rel.from_ref
    let toId := sanitizeId rel.to_ref
    let arrow := if optTruthy rel.description then
        "|" ++ rel.description.getD "" ++ "|"
      else ""
    if optTruthy rel.via then
      let viaId := sanitizeId (rel.via.getD "")
      ["    " ++ fromId ++ " -->" ++ arrow ++ " " ++ viaId,
       "    " ++ viaId ++ " --> " ++ toId]
    else
      ["    " ++ fromId ++ " -->" ++ arrow ++ " " ++ toId])).flatten

/-- Embeds `_render_mermaid_graph` for the non-domain branch (mermaid.py
lines 140-190), as the list of lines the source joins with newlines:
the header, the node lines (with a fresh `seen_ids` set), the blank
separator (`lines` is never empty, so the `if lines` guard always
fires), and the relationship lines.  The `resolver` parameter of the
source function is never read and is elided; the domain subgraph branch
(`_render_domain_view`) is not embedded — no claim reads it. -/
def renderMermaidFlat (nodes : List Resource) (rels : List Relationship)
    (zoom : String) : List String :=
  ("graph TB" :: renderNodeLines zoom nodes []) ++ [""] ++
  renderRelLines rels

/-- Shorthand for a plain concrete resource with no interfaces, used by
the concrete example models below. -/
def plainRes (i : String) (cs : List Resource) : Resource :=
  .mk i ("N" ++ i) "service" false [] cs ""

/-- Two top-level resources whose computed full paths are both "a":
a global path collision. -/
def exampleDupModel : ArchitectureModel :=
  { resources := [.mk "a" "first" "service" false [] [] "",
                  .mk "a" "second" "service" false [] [] ""] }

/-- Root `R` with abstract child `D` containing concrete child `S`
(the worked example of the zoom-level specification). -/
def exampleRDSModel : ArchitectureModel :=
  { resources := [.mk "R" "R" "system" false []
      [.mk "D" "D" "domain" true [] [.mk "S" "S" "service" false [] [] ""] ""] ""] }

/-- Resources `{a, b}` and the relationship `a → nonexistent`. -/
def exampleRelBadModel : ArchitectureModel :=
  { resources := [plainRes "a" [], plainRes "b" []],
    relationships := [{ from_ref := "a", to_ref := "nonexistent" }] }

/-- Resources `{a, b}` and the relationship `a → b`. -/
def exampleRelGoodModel : ArchitectureModel :=
  { resources := [plainRes "a" [], plainRes "b" []],
    relationships := [{ from_ref := "a", to_ref := "b" }] }

/-- State machine with states `{A, B, C}`, `initial = A`, and the single
transition `A → B`. -/
def exampleSM : StateMachine :=
  { id := "sm", name := "SM", resource := "a", initial := "A",
    states := [⟨"A", "A"⟩, ⟨"B", "B"⟩, ⟨"C", "C"⟩],
    transitions := [{ from_state := "A", to_state := "B" }] }

/-- A model holding just `exampleSM` (anchored to resource `a`). -/
def exampleSMModel : ArchitectureModel :=
  { resources := [plainRes "a" []], state_machines := [exampleSM] }

/-- Root `x` with an interface `y` and a child resource `y`: the
resource path "x.y" and the interface path "x.y" coincide. -/
def exampleIfaceModel : ArchitectureModel :=
  { resources := [.mk "x" "X" "service" false
      [{ id := "y", protocol := "http", direction := "in" }]
      [plainRes "y" []] ""] }

/-- Two parents `p` and `q`, each with a child of the same id `c`. -/
def exampleTwoParentModel : ArchitectureModel :=
  { resources := [plainRes "p" [plainRes "c" []],
                  plainRes "q" [plainRes "c" []]] }

/-- Two top-level resources whose ids "a-b" and "a.b" differ only in
"-" versus "." and therefore sanitize to the same Mermaid id. -/
def exampleMermaidModel : ArchitectureModel :=
  { resources := [.mk "a-b" "A" "service" false [] [] "",
                  .mk "a.b" "B" "service" false [] [] ""] }

/-- A model with a single sequence of one step `user → user`, for the
external-actor exemption. -/
def exampleUserStepModel : ArchitectureModel :=
  { sequences := [⟨"s", "S", [.mk "user" "user" [] []]⟩] }

/-- Embeds `True` iff the issue is an error (used to split the recorded issue
stream into the two result buckets). -/
def isErrorIssue (i : ValidationIssue) : Bool :=
  match i.severity with
  | .error => true
  | .warning => false

theorem foldl_record_errors (issues : List ValidationIssue) :
    ∀ r : ValidationResult,
      (issues.foldl ValidationResult.record r).errors =
        r.errors ++ issues.filter isErrorIssue := by
  induction issues with
  | nil => intro r; simp
  | cons i rest ih =>
    intro r
    rw [List.foldl_cons, ih]
    cases h : i.severity <;>
      simp [ValidationResult.record, ValidationResult.addError,
        ValidationResult.addWarning, List.filter, isErrorIssue, h]

theorem foldl_record_warnings (issues : List ValidationIssue) :
    ∀ r : ValidationResult,
      (issues.foldl ValidationResult.record r).warnings =
        r.warnings ++ issues.filter (fun i => !isErrorIssue i) := by
  induction issues with
  | nil => intro r; simp
  | cons i rest ih =>
    intro r
    rw [List.foldl_cons, ih]
    cases h : i.severity <;>
      simp [ValidationResult.record, ValidationResult.addError,
        ValidationResult.addWarning, List.filter, isErrorIssue, h]

theorem foldl_record_valid (issues : List ValidationIssue) :
    ∀ r : ValidationResult,
      (issues.foldl ValidationResult.record r).valid =
        (r.valid && (issues.filter isErrorIssue).isEmpty) := by
  induction issues with
  | nil => intro r; simp
  | cons i rest ih =>
    intro r
    rw [List.foldl_cons, ih]
    cases h : i.severity <;>
      simp [ValidationResult.record, ValidationResult.addError,
        ValidationResult.addWarning, List.filter, isErrorIssue, h]

theorem validate_errors_eq (m : ArchitectureModel) :
    (validate m).errors =
      (allIssues (indexModel m) (buildIndex m)).filter isErrorIssue := by
  simp [validate, foldl_record_errors]

theorem validate_warnings_eq (m : ArchitectureModel) :
    (validate m).warnings =
      (allIssues (indexModel m) (buildIndex m)).filter
        (fun i => !isErrorIssue i) := by
  simp [validate, foldl_record_warnings]

theorem validate_valid_eq (m : ArchitectureModel) :
    (validate m).valid = (validate m).errors.isEmpty := by
  simp [validate, foldl_record_valid, foldl_record_errors]

mutual

theorem assignPaths_idem : ∀ (pp : String) (r : Resource),
    assignPaths pp (assignPaths pp r) = assignPaths pp r
  | pp, .mk i n t a ifs cs fp => by
    simp only [assignPaths, Resource.mk.injEq, List.map_map, true_and]
    constructor
    · apply List.map_congr_left
      intro itf _
      cases itf
      rfl
    · exact ⟨assignPathsList_idem (joinPath pp i) cs, trivial⟩

theorem assignPathsList_idem : ∀ (pp : String) (rs : List Resource),
    assignPathsList pp (assignPathsList pp rs) = assignPathsList pp rs
  | _, [] => rfl
  | pp, c :: cs => by
    simp only [assignPathsList, List.cons.injEq]
    exact ⟨assignPaths_idem pp c, assignPathsList_idem pp cs⟩

end

theorem indexModel_idem (m : ArchitectureModel) :
    indexModel (indexModel m) = indexModel m := by
  simp [indexModel, assignPathsList_idem]

theorem buildIndex_indexModel (m : ArchitectureModel) :
    buildIndex (indexModel m) = buildIndex m := by
  simp [buildIndex, indexModel, assignPathsList_idem]

/-- C5: Running the validator twice on the same indexed model yields
identical `ValidationResult` contents.  The first run mutates the model
by indexing it (`indexModel`); a second validator run therefore operates
on the already-indexed model, and its result — valid flag, ordered error
list and ordered warning list — coincides with the first run's, because
path assignment is idempotent. -/
theorem C5_validate_deterministic (m : ArchitectureModel) :
    validate (indexModel m) = validate m ∧
    (validate (indexModel m)).valid = (validate m).valid ∧
    (validate (indexModel m)).errors = (validate m).errors ∧
    (validate (indexModel m)).warnings = (validate m).warnings := by
  have h : validate (indexModel m) = validate m := by
    simp only [validate, indexModel_idem, buildIndex_indexModel]
  exact ⟨h, by rw [h], by rw [h], by rw [h]⟩

/-- C9: a validation result's `valid` flag is false exactly when at
least one error was recorded: the run's flag equals the emptiness of its
error list, `add_error` always clears the flag, and `add_warning`
touches neither the flag nor the error list (so a model with only
warnings stays valid). -/
theorem C9_valid_iff_no_errors :
    (∀ m : ArchitectureModel,
      (validate m).valid = (validate m).errors.isEmpty) ∧
    (∀ (r : ValidationResult) (i : ValidationIssue),
      (r.addError i).valid = false) ∧
    (∀ (r : ValidationResult) (i : ValidationIssue),
      (r.addWarning i).valid = r.valid ∧ (r.addWarning i).errors = r.errors) :=
  ⟨validate_valid_eq,
   fun _ _ => rfl,
   fun _ _ => ⟨rfl, rfl⟩⟩

theorem mem_singleton_ite_left {c : Prop} [Decidable c]
    {i e : ValidationIssue}
    (h : i ∈ (if c then ([] : List ValidationIssue) else [e])) : i = e := by
  split at h <;> simp_all

/-- C3: the relationship-reference rule emits exactly one
"relationship-references" error per unresolved reference among
`from_ref`, `to_ref` and a truthy `via`, and nothing else; on the
concrete model `{a, b}` with `a → nonexistent` the whole run reports
exactly that one error and is invalid, while `a → b` reports none and
stays valid; a relationship with two unresolvable endpoints yields
exactly two errors. -/
theorem C3_relationship_reference_errors :
    (∀ (idx : ModelIndex) (rel : Relationship),
      (relationshipIssues idx rel).length =
        (if (resolve idx rel.from_ref).found then 0 else 1) +
        (if (resolve idx rel.to_ref).found then 0 else 1) +
        (match rel.via with
         | some v =>
           if v = "" then 0 else if (resolve idx v).found then 0 else 1
         | none => 0)) ∧
    (∀ (idx : ModelIndex) (rel : Relationship),
      ∀ i ∈ relationshipIssues idx rel,
        i.severity = Severity.error ∧
        i.rule = some "relationship-references") ∧
    (relationshipIssues (buildIndex exampleRelGoodModel)
      { from_ref := "nope1", to_ref := "nope2" }).length = 2 ∧
    (validate exampleRelBadModel).errors.map (fun i => i.rule) =
      [some "relationship-references"] ∧
    (validate exampleRelBadModel).valid = false ∧
    (validate exampleRelGoodModel).errors = [] ∧
    (validate exampleRelGoodModel).valid = true := by
  refine ⟨?_, ?_, by decide, by decide, by decide, by decide, by decide⟩
  · intro idx rel
    have hvia : (viaIssues idx rel.via).length =
        (match rel.via with
         | some v =>
           if v = "" then 0 else if (resolve idx v).found then 0 else 1
         | none => 0) := by
      rcases rel.via with _ | v
      · rfl
      · by_cases he : v = ""
        · simp [viaIssues, he]
        · cases hvf : (resolve idx v).found <;> simp [viaIssues, he, hvf]
    simp only [relationshipIssues, List.length_append, hvia]
    cases hf : (resolve idx rel.from_ref).found <;>
    cases ht : (resolve idx rel.to_ref).found <;>
    simp [hf, ht]
  · intro idx rel i hi
    simp only [relationshipIssues, List.append_assoc, List.mem_append] at hi
    rcases hi with hi | hi | hi
    · rw [mem_singleton_ite_left hi]; exact ⟨rfl, rfl⟩
    · rw [mem_singleton_ite_left hi]; exact ⟨rfl, rfl⟩
    · rcases hv : rel.via with _ | v
      · rw [hv] at hi; simp [viaIssues] at hi
      · rw [hv] at hi
        by_cases he : v = ""
        · simp [viaIssues, he] at hi
        · rw [viaIssues, if_neg he] at hi
          rw [mem_singleton_ite_left hi]; exact ⟨rfl, rfl⟩

theorem C3_relationship_reference_errors_witness :
    (errIssue ("Relationship to reference not found: " ++ "nonexistent")
      "nonexistent" "relationship-references").severity = Severity.error ∧
    (errIssue ("Relationship to reference not found: " ++ "nonexistent")
      "nonexistent" "relationship-references").rule =
      some "relationship-references" :=
  C3_relationship_reference_errors.2.1 (buildIndex exampleRelBadModel)
    { from_ref := "a", to_ref := "nonexistent" } _ (by decide)

/-- C7: `resolve` tries the interface index first; on an interface hit
it returns an interface result whose owning resource is the resource
resolved at the path with its last segment stripped; only when no
interface matches does it fall back to a direct resource lookup, and
otherwise returns a not-found result — so an interface match always wins
over a resource match at the same path string. -/
theorem C7_resolve_interface_precedence :
    (∀ (idx : ModelIndex) (path : String) (itf : Interface),
      resolveInterface idx path = some itf →
      resolve idx path =
        { path := path,
          resource := resolveResource idx (stripLastSegment path),
          interface := some itf, is_interface := true }) ∧
    (∀ (idx : ModelIndex) (path : String) (r : Resource),
      resolveInterface idx path = none →
      resolveResource idx path = some r →
      resolve idx path =
        { path := path, resource := some r, is_resource := true }) ∧
    (∀ (idx : ModelIndex) (path : String),
      resolveInterface idx path = none →
      resolveResource idx path = none →
      resolve idx path = { path := path } ∧
      (resolve idx path).found = false) ∧
    (∀ (idx : ModelIndex) (path : String),
      (resolveInterface idx path).isSome = true →
      (resolve idx path).is_interface = true ∧
      (resolve idx path).is_resource = false) := by
  refine ⟨?_, ?_, ?_, ?_⟩ <;> intro idx path
  · intro itf h
    simp [resolve, h]
  · intro r h1 h2
    simp [resolve, h1, h2]
  · intro h1 h2
    constructor
    · simp [resolve, h1, h2]
    · simp [resolve, h1, h2, ResolutionResult.found]
  · intro h
    rcases Option.isSome_iff_exists.mp h with ⟨itf, hitf⟩
    simp [resolve, hitf]

theorem C7_resolve_interface_precedence_witness :
    resolve (buildIndex exampleIfaceModel) "x.y" =
      { path := "x.y",
        resource :=
          resolveResource (buildIndex exampleIfaceModel)
            (stripLastSegment "x.y"),
        interface := some ⟨"y", "http", "in", "x.y"⟩,
        is_interface := true } ∧
    (resolve (buildIndex exampleIfaceModel) "x.y").is_interface = true ∧
    (resolve (buildIndex exampleIfaceModel) "x.y").is_resource = false ∧
    (resolveResource (buildIndex exampleIfaceModel) "x.y").isSome = true :=
  ⟨C7_resolve_interface_precedence.1 (buildIndex exampleIfaceModel) "x.y"
      ⟨"y", "http", "in", "x.y"⟩ (by decide),
   (C7_resolve_interface_precedence.2.2.2 (buildIndex exampleIfaceModel)
      "x.y" (by decide)).1,
   (C7_resolve_interface_precedence.2.2.2 (buildIndex exampleIfaceModel)
      "x.y" (by decide)).2,
   by decide⟩

/-- C8: in sequence-step validation the reserved "user" token is exempt
from resolution only as a `from_ref`: the from-endpoint check emits
nothing for it, while the to-endpoint check emits a
"sequence-references" error whenever the reference (the token included)
does not resolve; `stepIssues`/`validateSteps` apply exactly these two
endpoint checks at every nesting level, recursing through `parallel`
steps and `alt` blocks. -/
theorem C8_user_actor_exemption :
    (∀ (idx : ModelIndex) (sid ctx : String) (s : Step),
      s.from_ref = "user" → fromRefIssues idx sid ctx s.from_ref = []) ∧
    (∀ (idx : ModelIndex) (sid ctx : String) (s : Step),
      s.to_ref = "user" → (resolve idx "user").found = false →
      toRefIssues idx sid ctx s.to_ref =
        [errIssue ("Sequence " ++ sid ++ " " ++ ctx ++
          " to reference not found: " ++ "user") "user"
          "sequence-references"]) ∧
    (∀ (idx : ModelIndex) (sid ctx : String) (s : Step),
      stepIssues idx sid ctx s =
        fromRefIssues idx sid ctx s.from_ref ++
        toRefIssues idx sid ctx s.to_ref ++
        validateSteps idx sid (ctx ++ ".parallel.") 0 s.parallel ++
        altIssuesList idx sid ctx 0 s.alt) ∧
    (∀ (idx : ModelIndex) (sid ctx : String) (i : Nat) (s : Step)
      (rest : List Step),
      validateSteps idx sid ctx i (s :: rest) =
        stepIssues idx sid (stepCtx ctx i) s ++
        validateSteps idx sid ctx (i + 1) rest) := by
  refine ⟨?_, ?_, ?_, ?_⟩
  · intro idx sid ctx s h
    rw [h]
    simp [fromRefIssues]
  · intro idx sid ctx s h hf
    rw [h]
    simp [toRefIssues, hf]
  · intro idx sid ctx s
    cases s
    rfl
  · intro idx sid ctx i s rest
    rfl

theorem C8_user_actor_exemption_witness :
    fromRefIssues (buildIndex exampleUserStepModel) "s" "step[0]" "user" =
      [] ∧
    toRefIssues (buildIndex exampleUserStepModel) "s" "step[0]" "user" ≠
      [] ∧
    (validate exampleUserStepModel).errors.map (fun i => i.rule) =
      [some "sequence-references"] := by
  refine ⟨C8_user_actor_exemption.1 (buildIndex exampleUserStepModel)
    "s" "step[0]" (.mk "user" "user" [] []) rfl, ?_, by decide⟩
  have h2 := C8_user_actor_exemption.2.1 (buildIndex exampleUserStepModel)
    "s" "step[0]" (.mk "user" "user" [] []) rfl (by decide)
  simp only [Step.to_ref] at h2
  rw [h2]
  decide

/-- C10: Mermaid id sanitization is not injective — the distinct full
paths "a-b" and "a.b" both sanitize to "a_b" — and the flat renderer
skips a node whose sanitized id was already emitted, so of the two
distinct visible resources only the first ("A") is rendered and the
second ("B") is silently dropped. -/
theorem C10_sanitize_collision_drops_node :
    sanitizeId "a-b" = sanitizeId "a.b" ∧
    "a-b" ≠ "a.b" ∧
    ((indexModel exampleMermaidModel).resources.map Resource.fullPath) =
      ["a-b", "a.b"] ∧
    collectNodesForView (indexModel exampleMermaidModel) "landscape" =
      (indexModel exampleMermaidModel).resources ∧
    renderMermaidFlat
      (collectNodesForView (indexModel exampleMermaidModel) "landscape")
      [] "landscape" = ["graph TB", "    a_b[A]", ""] := by
  decide

theorem bfsLoop_mem_of_mem_reach (out : String → List String) :
    ∀ (fuel : Nat) (q reach : List String) (x : String), x ∈ reach →
      x ∈ bfsLoop out fuel q reach := by
  intro fuel
  induction fuel with
  | zero => intro q reach x hx; simpa [bfsLoop] using hx
  | succ f ih =>
    intro q reach x hx
    cases q with
    | nil => simpa [bfsLoop] using hx
    | cons c rest =>
      simp only [bfsLoop]
      split
      · exact ih rest reach x hx
      · exact ih (rest ++ out c) (reach ++ [c]) x (by simp [hx])

theorem initial_mem_smReachable (sm : StateMachine) :
    sm.initial ∈ smReachable sm := by
  unfold smReachable
  have h2 : sm.states.length + sm.transitions.length + 2 =
      (sm.states.length + sm.transitions.length + 1) + 1 := rfl
  rw [h2]
  simp only [bfsLoop]
  rw [if_neg (by simp)]
  exact bfsLoop_mem_of_mem_reach _ _ _ _ sm.initial (by simp)

/-- C4: the state-transition rule BFS-traverses each state machine's
transition graph from the initial state; every declared state not
reached is reported as a warning — with rule "state-transitions", never
as an error, and it lands in the run's warning bucket — and the initial
state itself is always reached; on `{A, B, C}` with `initial = A` and
the single transition `A → B`, exactly `C` is reported, as a warning. -/
theorem C4_unreachable_state_warnings :
    (∀ (m : ArchitectureModel), ∀ i ∈ stateTransitionIssues m,
      i.severity = Severity.warning ∧ i.rule = some "state-transitions") ∧
    (∀ (m : ArchitectureModel) (i : ValidationIssue),
      i ∈ stateTransitionIssues (indexModel m) →
      i ∈ (validate m).warnings ∧ i ∉ (validate m).errors) ∧
    (∀ sm : StateMachine, sm.initial ∈ smReachable sm) ∧
    (∀ (m : ArchitectureModel) (sm : StateMachine) (s : State),
      sm ∈ m.state_machines → s ∈ sm.states → s.id ∉ smReachable sm →
      warnIssue ("State machine " ++ sm.id ++ " state " ++ s.id ++
        " is not reachable from initial state " ++ sm.initial) sm.id
        "state-transitions" ∈ stateTransitionIssues m) ∧
    smReachable exampleSM = ["A", "B"] ∧
    stateTransitionIssues exampleSMModel =
      [warnIssue ("State machine " ++ "sm" ++ " state " ++ "C" ++
        " is not reachable from initial state " ++ "A") "sm"
        "state-transitions"] ∧
    (validate exampleSMModel).errors = [] ∧
    (validate exampleSMModel).warnings.map (fun i => i.rule) =
      [some "state-transitions"] := by
  have hsev : ∀ (m : ArchitectureModel), ∀ i ∈ stateTransitionIssues m,
      i.severity = Severity.warning ∧ i.rule = some "state-transitions" := by
    intro m i hi
    simp only [stateTransitionIssues, List.mem_flatten, List.mem_map] at hi
    rcases hi with ⟨l, ⟨sm, _, hl⟩, hil⟩
    rw [← hl] at hil
    simp only [List.mem_map] at hil
    rcases hil with ⟨s, _, hs⟩
    rw [← hs]
    exact ⟨rfl, rfl⟩
  refine ⟨hsev, ?_, initial_mem_smReachable, ?_, by decide, by decide,
    by decide, by decide⟩
  · intro m i hi
    have hw := (hsev (indexModel m) i hi).1
    have hmem : i ∈ allIssues (indexModel m) (buildIndex m) := by
      simp only [allIssues, List.mem_append]
      tauto
    constructor
    · rw [validate_warnings_eq]
      simp only [List.mem_filter]
      exact ⟨hmem, by simp [isErrorIssue, hw]⟩
    · rw [validate_errors_eq]
      simp only [List.mem_filter]
      rintro ⟨-, herr⟩
      simp [isErrorIssue, hw] at herr
  · intro m sm s hsm hs hrs
    have hne : s.id ≠ sm.initial := by
      intro h
      exact hrs (h ▸ initial_mem_smReachable sm)
    simp only [stateTransitionIssues, List.mem_flatten, List.mem_map]
    refine ⟨_, ⟨sm, hsm, rfl⟩, ?_⟩
    simp only [List.mem_map]
    refine ⟨s, ?_, rfl⟩
    simp only [List.mem_filter, decide_eq_true_eq]
    exact ⟨hs, hrs, hne⟩

theorem C4_unreachable_state_warnings_witness :
    warnIssue ("State machine " ++ "sm" ++ " state " ++ "C" ++
      " is not reachable from initial state " ++ "A") "sm"
      "state-transitions" ∈ stateTransitionIssues exampleSMModel :=
  C4_unreachable_state_warnings.2.2.2.1 exampleSMModel exampleSM
    ⟨"C", "C"⟩ (by decide) (by decide) (by decide)

theorem dedupAppend_mem (acc : List Resource) (x r : Resource) :
    r ∈ dedupAppend acc x ↔ r ∈ acc ∨ r = x := by
  unfold dedupAppend
  split
  · constructor
    · exact fun h => Or.inl h
    · rintro (h | rfl) <;> assumption
  · simp

mutual

theorem walkEntries_depth_le : ∀ (r : Resource) (d : Nat)
    (pa : Option Bool) (e : Resource × Nat × Option Bool),
    e ∈ walkEntries d pa r → d ≤ e.2.1
  | .mk i n t a ifs cs fp, d, pa, e, he => by
    simp only [walkEntries, List.mem_cons] at he
    rcases he with rfl | he
    · exact Nat.le_refl d
    · exact Nat.le_of_succ_le (walkEntriesList_depth_le cs (d + 1)
        (some a) e he)

theorem walkEntriesList_depth_le : ∀ (rs : List Resource) (d : Nat)
    (pa : Option Bool) (e : Resource × Nat × Option Bool),
    e ∈ walkEntriesList d pa rs → d ≤ e.2.1
  | c :: cs, d, pa, e, he => by
    simp only [walkEntriesList, List.mem_append] at he
    rcases he with he | he
    · exact walkEntries_depth_le c d pa e he
    · exact walkEntriesList_depth_le cs d pa e he

end

mutual

theorem walkEntries_mem_self_depth : ∀ (x : Resource) (d0 : Nat)
    (pa0 : Option Bool) (r : Resource) (pa : Option Bool),
    ((r, d0, pa) ∈ walkEntries d0 pa0 x ↔ (r = x ∧ pa = pa0))
  | .mk i n t a ifs cs fp, d0, pa0, r, pa => by
    simp only [walkEntries, List.mem_cons, Prod.mk.injEq]
    constructor
    · rintro (⟨h1, _, h3⟩ | h)
      · exact ⟨h1, h3⟩
      · have h' : d0 + 1 ≤ d0 :=
          walkEntriesList_depth_le cs (d0 + 1) (some a) (r, d0, pa) h
        omega
    · rintro ⟨rfl, rfl⟩
      exact Or.inl (by simp)

theorem walkEntriesList_mem_self_depth : ∀ (rs : List Resource) (d0 : Nat)
    (pa0 : Option Bool) (r : Resource) (pa : Option Bool),
    ((r, d0, pa) ∈ walkEntriesList d0 pa0 rs ↔ (r ∈ rs ∧ pa = pa0))
  | [], d0, pa0, r, pa => by simp [walkEntriesList]
  | c :: cs, d0, pa0, r, pa => by
    simp only [walkEntriesList, List.mem_append, List.mem_cons,
      walkEntries_mem_self_depth c d0 pa0 r pa,
      walkEntriesList_mem_self_depth cs d0 pa0 r pa]
    tauto

end

mutual

theorem walkEntries_fst : ∀ (x : Resource) (d : Nat) (pa : Option Bool),
    (walkEntries d pa x).map (fun e => e.1) = allNodes x
  | .mk i n t a ifs cs fp, d, pa => by
    simp only [walkEntries, allNodes, List.map_cons, List.cons.injEq]
    exact ⟨trivial, walkEntriesList_fst cs (d + 1) (some a)⟩

theorem walkEntriesList_fst : ∀ (rs : List Resource) (d : Nat)
    (pa : Option Bool),
    (walkEntriesList d pa rs).map (fun e => e.1) = allNodesList rs
  | [], _, _ => rfl
  | c :: cs, d, pa => by
    simp only [walkEntriesList, allNodesList, List.map_append]
    rw [walkEntries_fst c d pa, walkEntriesList_fst cs d pa]

end

mutual

theorem walkEntries_mem_parent_abs : ∀ (x : Resource) (d0 : Nat)
    (pa0 : Option Bool) (r : Resource),
    ((∃ d, (r, d, some true) ∈ walkEntries d0 pa0 x) ↔
      ((pa0 = some true ∧ r = x) ∨
       ∃ p ∈ allNodes x, p.abstract = true ∧ r ∈ p.children))
  | .mk i n t a ifs cs fp, d0, pa0, r => by
    have hrec := walkEntriesList_mem_parent_abs cs (d0 + 1) (some a) r
    simp only [walkEntries, allNodes, List.mem_cons, Prod.mk.injEq]
    constructor
    · rintro ⟨d, (⟨h1, _, h3⟩ | h)⟩
      · exact Or.inl ⟨h3.symm, h1⟩
      · rcases hrec.mp ⟨d, h⟩ with ⟨ha, hr⟩ | ⟨p, hp, hpa, hpc⟩
        · refine Or.inr ⟨Resource.mk i n t a ifs cs fp, Or.inl rfl, ?_, ?_⟩
          · simpa [Resource.abstract] using Option.some.inj ha
          · simpa [Resource.children] using hr
        · exact Or.inr ⟨p, Or.inr hp, hpa, hpc⟩
    · rintro (⟨hpa, rfl⟩ | ⟨p, hp | hp, hpa, hpc⟩)
      · exact ⟨d0, Or.inl (by simp [hpa])⟩
      · subst hp
        rcases hrec.mpr (Or.inl ⟨by
            simpa [Resource.abstract] using hpa, by
            simpa [Resource.children] using hpc⟩) with ⟨d, hd⟩
        exact ⟨d, Or.inr hd⟩
      · rcases hrec.mpr (Or.inr ⟨p, hp, hpa, hpc⟩) with ⟨d, hd⟩
        exact ⟨d, Or.inr hd⟩

theorem walkEntriesList_mem_parent_abs : ∀ (rs : List Resource) (d0 : Nat)
    (pa0 : Option Bool) (r : Resource),
    ((∃ d, (r, d, some true) ∈ walkEntriesList d0 pa0 rs) ↔
      ((pa0 = some true ∧ r ∈ rs) ∨
       ∃ p ∈ allNodesList rs, p.abstract = true ∧ r ∈ p.children))
  | [], d0, pa0, r => by simp [walkEntriesList, allNodesList]
  | c :: cs, d0, pa0, r => by
    have h1 := walkEntries_mem_parent_abs c d0 pa0 r
    have h2 := walkEntriesList_mem_parent_abs cs d0 pa0 r
    simp only [walkEntriesList, allNodesList, List.mem_append,
      List.mem_cons]
    constructor
    · rintro ⟨d, hd | hd⟩
      · rcases h1.mp ⟨d, hd⟩ with ⟨ha, hr⟩ | ⟨p, hp, hrest⟩
        · exact Or.inl ⟨ha, Or.inl hr⟩
        · exact Or.inr ⟨p, Or.inl hp, hrest⟩
      · rcases h2.mp ⟨d, hd⟩ with ⟨ha, hr⟩ | ⟨p, hp, hrest⟩
        · exact Or.inl ⟨ha, Or.inr hr⟩
        · exact Or.inr ⟨p, Or.inr hp, hrest⟩
    · rintro (⟨ha, hr | hr⟩ | ⟨p, hp | hp, hrest⟩)
      · rcases h1.mpr (Or.inl ⟨ha, hr⟩) with ⟨d, hd⟩
        exact ⟨d, Or.inl hd⟩
      · rcases h2.mpr (Or.inl ⟨ha, hr⟩) with ⟨d, hd⟩
        exact ⟨d, Or.inr hd⟩
      · rcases h1.mpr (Or.inr ⟨p, hp, hrest⟩) with ⟨d, hd⟩
        exact ⟨d, Or.inl hd⟩
      · rcases h2.mpr (Or.inr ⟨p, hp, hrest⟩) with ⟨d, hd⟩
        exact ⟨d, Or.inr hd⟩

end

theorem domainFold_mem (entries : List (Resource × Nat × Option Bool)) :
    ∀ (acc : List Resource) (r : Resource),
      (r ∈ entries.foldl (fun acc e =>
        if e.2.1 = 0 || e.1.abstract then dedupAppend acc e.1
        else if e.2.2 = some true then dedupAppend acc e.1
        else acc) acc ↔
      (r ∈ acc ∨ ∃ e ∈ entries, e.1 = r ∧
        (e.2.1 = 0 ∨ e.1.abstract = true ∨ e.2.2 = some true))) := by
  induction entries with
  | nil => intro acc r; simp
  | cons e rest ih =>
    intro acc r
    rw [List.foldl_cons, ih]
    have hstep : r ∈ (if e.2.1 = 0 || e.1.abstract then dedupAppend acc e.1
        else if e.2.2 = some true then dedupAppend acc e.1 else acc) ↔
        (r ∈ acc ∨ (e.1 = r ∧
          (e.2.1 = 0 ∨ e.1.abstract = true ∨ e.2.2 = some true))) := by
      by_cases h1 : e.2.1 = 0
      · rw [if_pos (by simp [h1]), dedupAppend_mem]
        constructor
        · rintro (h | rfl)
          · exact Or.inl h
          · exact Or.inr ⟨rfl, Or.inl h1⟩
        · rintro (h | ⟨rfl, _⟩)
          · exact Or.inl h
          · exact Or.inr rfl
      · by_cases h2 : e.1.abstract = true
        · rw [if_pos (by simp [h2]), dedupAppend_mem]
          constructor
          · rintro (h | rfl)
            · exact Or.inl h
            · exact Or.inr ⟨rfl, Or.inr (Or.inl h2)⟩
          · rintro (h | ⟨rfl, _⟩)
            · exact Or.inl h
            · exact Or.inr rfl
        · rw [if_neg (by simp [h1, h2])]
          by_cases h3 : e.2.2 = some true
          · rw [if_pos h3, dedupAppend_mem]
            constructor
            · rintro (h | rfl)
              · exact Or.inl h
              · exact Or.inr ⟨rfl, Or.inr (Or.inr h3)⟩
            · rintro (h | ⟨rfl, _⟩)
              · exact Or.inl h
              · exact Or.inr rfl
          · rw [if_neg h3]
            constructor
            · exact Or.inl
            · rintro (h | ⟨rfl, hc⟩)
              · exact h
              · rcases hc with hc | hc | hc
                · exact absurd hc h1
                · exact absurd hc h2
                · exact absurd hc h3
    rw [hstep]
    constructor
    · rintro ((h | hP) | ⟨x, hx, hP⟩)
      · exact Or.inl h
      · exact Or.inr ⟨e, List.mem_cons_self e rest, hP⟩
      · exact Or.inr ⟨x, List.mem_cons_of_mem e hx, hP⟩
    · rintro (h | ⟨x, hx, hP⟩)
      · exact Or.inl (Or.inl h)
      · rcases List.mem_cons.mp hx with rfl | hx'
        · exact Or.inl (Or.inr hP)
        · exact Or.inr ⟨x, hx', hP⟩

/-- C2: `landscape` selects exactly the root resources; `domain`
selects exactly the roots, every abstract resource, and the direct
children of abstract resources; `service` selects exactly the
non-abstract resources at every depth (never an abstract one), its
visible interface paths being exactly the interfaces of the selected
nodes; on root `R` with abstract child `D` containing concrete child
`S`, landscape yields exactly `R`, domain exactly `R, D, S`, and
service yields `R, S` but never `D`. -/
theorem C2_zoom_node_selection :
    (∀ m : ArchitectureModel,
      collectNodesForView m "landscape" = m.resources) ∧
    (∀ (m : ArchitectureModel) (r : Resource),
      r ∈ collectNodesForView m "domain" ↔
        (r ∈ m.resources ∨ (r.abstract = true ∧ r ∈ allModelNodes m) ∨
         ∃ p ∈ allModelNodes m, p.abstract = true ∧ r ∈ p.children)) ∧
    (∀ (m : ArchitectureModel) (r : Resource),
      r ∈ collectNodesForView m "service" ↔
        (r ∈ allModelNodes m ∧ r.abstract = false)) ∧
    (∀ (m : ArchitectureModel) (r : Resource),
      r ∈ collectNodesForView m "service" → r.abstract = false) ∧
    (∀ (nodes : List Resource) (p : String),
      p ∈ serviceInterfacePaths nodes ↔
        ∃ n ∈ nodes, ∃ itf ∈ n.interfaces,
          p = n.fullPath ++ "." ++ itf.id) ∧
    (collectNodesForView (indexModel exampleRDSModel) "landscape").map
      Resource.id = ["R"] ∧
    (collectNodesForView (indexModel exampleRDSModel) "domain").map
      Resource.id = ["R", "D", "S"] ∧
    (collectNodesForView (indexModel exampleRDSModel) "service").map
      Resource.id = ["R", "S"] ∧
    (∀ r ∈ collectNodesForView (indexModel exampleRDSModel) "service",
      r.id ≠ "D") := by
  have hservice : ∀ (m : ArchitectureModel) (r : Resource),
      r ∈ collectNodesForView m "service" ↔
        (r ∈ allModelNodes m ∧ r.abstract = false) := by
    intro m r
    have hs : collectNodesForView m "service" =
        ((modelWalkEntries m).filter (fun e => !e.1.abstract)).map
          (fun e => e.1) := rfl
    rw [hs]
    simp only [List.mem_map, List.mem_filter, Bool.not_eq_true']
    constructor
    · rintro ⟨e, ⟨he, hab⟩, rfl⟩
      refine ⟨?_, hab⟩
      show e.1 ∈ allNodesList m.resources
      rw [← walkEntriesList_fst m.resources 0 none]
      exact List.mem_map_of_mem _ he
    · rintro ⟨hnode, hab⟩
      have hr : r ∈ (walkEntriesList 0 none m.resources).map
          (fun e => e.1) := by
        rw [walkEntriesList_fst]
        exact hnode
      rcases List.mem_map.mp hr with ⟨e, he, rfl⟩
      exact ⟨e, ⟨he, hab⟩, rfl⟩
  refine ⟨fun _ => rfl, ?_, hservice,
    fun m r h => ((hservice m r).mp h).2, ?_,
    by decide, by decide, by decide, by decide⟩
  · intro m r
    have hd : collectNodesForView m "domain" =
        (modelWalkEntries m).foldl (fun acc e =>
          if e.2.1 = 0 || e.1.abstract then dedupAppend acc e.1
          else if e.2.2 = some true then dedupAppend acc e.1
          else acc) [] := rfl
    rw [hd, domainFold_mem]
    simp only [List.not_mem_nil, false_or]
    constructor
    · rintro ⟨⟨x, d, pa⟩, he, rfl, hcase⟩
      rcases hcase with h0 | ha | hpa
      · left
        simp only at h0
        subst h0
        exact ((walkEntriesList_mem_self_depth m.resources 0 none x
          pa).mp he).1
      · right; left
        refine ⟨ha, ?_⟩
        show x ∈ allNodesList m.resources
        rw [← walkEntriesList_fst m.resources 0 none]
        exact List.mem_map_of_mem _ he
      · right; right
        simp only at hpa
        subst hpa
        rcases (walkEntriesList_mem_parent_abs m.resources 0 none x).mp
          ⟨d, he⟩ with ⟨hcontra, _⟩ | hp
        · exact absurd hcontra (by simp)
        · exact hp
    · rintro (hroot | ⟨ha, hnode⟩ | ⟨p, hp, hpa, hpc⟩)
      · refine ⟨(r, 0, none), ?_, rfl, Or.inl rfl⟩
        exact (walkEntriesList_mem_self_depth m.resources 0 none r
          none).mpr ⟨hroot, rfl⟩
      · have hr : r ∈ (walkEntriesList 0 none m.resources).map
            (fun e => e.1) := by
          rw [walkEntriesList_fst]
          exact hnode
        rcases List.mem_map.mp hr with ⟨e, he, rfl⟩
        exact ⟨e, he, rfl, Or.inr (Or.inl ha)⟩
      · rcases (walkEntriesList_mem_parent_abs m.resources 0 none r).mpr
          (Or.inr ⟨p, hp, hpa, hpc⟩) with ⟨d, hd'⟩
        exact ⟨(r, d, some true), hd', rfl, Or.inr (Or.inr rfl)⟩
  · intro nodes p
    simp only [serviceInterfacePaths, List.mem_flatten, List.mem_map]
    constructor
    · rintro ⟨l, ⟨n, hn, rfl⟩, hpl⟩
      rcases List.mem_map.mp hpl with ⟨itf, hitf, rfl⟩
      exact ⟨n, hn, itf, hitf, rfl⟩
    · rintro ⟨n, hn, itf, hitf, rfl⟩
      exact ⟨n.interfaces.map (fun itf => n.fullPath ++ "." ++ itf.id),
        ⟨n, hn, rfl⟩, List.mem_map_of_mem _ hitf⟩

theorem C2_zoom_node_selection_witness :
    (Resource.mk "S" "S" "service" false [] [] "R.D.S").abstract = false :=
  C2_zoom_node_selection.2.2.2.1 (indexModel exampleRDSModel)
    (Resource.mk "S" "S" "service" false [] [] "R.D.S") (by decide)

theorem assignPathsList_eq_map (pp : String) (rs : List Resource) :
    assignPathsList pp rs = rs.map (assignPaths pp) := by
  induction rs with
  | nil => rfl
  | cons c cs ih => simp only [assignPathsList, List.map_cons, ih]

theorem assignPaths_fullPath (pp : String) (r : Resource) :
    (assignPaths pp r).fullPath = joinPath pp r.id := by
  cases r; rfl

theorem assignPaths_id (pp : String) (r : Resource) :
    (assignPaths pp r).id = r.id := by
  cases r; rfl

theorem assignPaths_children (pp : String) (r : Resource) :
    (assignPaths pp r).children =
      assignPathsList (joinPath pp r.id) r.children := by
  cases r; rfl

theorem assignPaths_interfaces (pp : String) (r : Resource) :
    (assignPaths pp r).interfaces = r.interfaces.map
      (fun itf => { itf with fullPath := joinPath pp r.id ++ "." ++ itf.id }) := by
  cases r; rfl

theorem string_append_cancel_right {a b t : String}
    (h : a ++ t = b ++ t) : a = b := by
  apply String.ext
  have hd : a.data ++ t.data = b.data ++ t.data := by
    rw [← String.data_append, ← String.data_append, h]
  exact List.append_cancel_right hd

theorem append_dot_ne_empty (a b : String) : a ++ "." ++ b ≠ "" := by
  intro h
  have hl := congrArg String.length h
  simp only [String.length_append] at hl
  have h1 : ("." : String).length = 1 := rfl
  have h0 : ("" : String).length = 0 := rfl
  omega

theorem joinPath_ne_empty {pp i : String} (hi : i ≠ "") :
    joinPath pp i ≠ "" := by
  unfold joinPath
  split
  · exact hi
  · exact append_dot_ne_empty pp i

theorem joinPath_of_ne_empty {pp : String} (i : String) (hpp : pp ≠ "") :
    joinPath pp i = pp ++ "." ++ i := by
  unfold joinPath
  exact if_neg hpp

theorem self_mem_allNodes (r : Resource) : r ∈ allNodes r := by
  cases r
  simp [allNodes]

theorem mem_allNodesList_of_mem {rs : List Resource} {r : Resource}
    (h : r ∈ rs) : r ∈ allNodesList rs := by
  induction rs with
  | nil => simp at h
  | cons c cs ih =>
    simp only [allNodesList, List.mem_append]
    rcases List.mem_cons.mp h with rfl | h'
    · exact Or.inl (self_mem_allNodes r)
    · exact Or.inr (ih h')

mutual

theorem mem_allNodes_trans : ∀ (x n m' : Resource),
    n ∈ allNodes x → m' ∈ allNodes n → m' ∈ allNodes x
  | .mk i nm ty a ifs cs fp, n, m', hn, hm => by
    simp only [allNodes, List.mem_cons] at hn ⊢
    rcases hn with rfl | hn
    · simpa [allNodes] using hm
    · exact Or.inr (mem_allNodesList_trans cs n m' hn hm)

theorem mem_allNodesList_trans : ∀ (rs : List Resource) (n m' : Resource),
    n ∈ allNodesList rs → m' ∈ allNodes n → m' ∈ allNodesList rs
  | c :: cs, n, m', hn, hm => by
    simp only [allNodesList, List.mem_append] at hn ⊢
    rcases hn with hn | hn
    · exact Or.inl (mem_allNodes_trans c n m' hn hm)
    · exact Or.inr (mem_allNodesList_trans cs n m' hn hm)

end

theorem mem_allNodes_of_child {n c : Resource} (hc : c ∈ n.children) :
    c ∈ allNodes n := by
  cases n with
  | mk i nm ty a ifs cs fp =>
    simp only [Resource.children] at hc
    simp only [allNodes, List.mem_cons]
    exact Or.inr (mem_allNodesList_of_mem hc)

mutual

theorem assign_nodes_childPaths : ∀ (pp : String) (r : Resource),
    ∀ n ∈ allNodes (assignPaths pp r),
      (∀ c ∈ n.children, c.fullPath = joinPath n.fullPath c.id) ∧
      (∀ itf ∈ n.interfaces, itf.fullPath = n.fullPath ++ "." ++ itf.id)
  | pp, .mk i nm ty a ifs cs fp, n, hn => by
    rw [show assignPaths pp (Resource.mk i nm ty a ifs cs fp) =
        Resource.mk i nm ty a
          (ifs.map fun itf =>
            { itf with fullPath := joinPath pp i ++ "." ++ itf.id })
          (assignPathsList (joinPath pp i) cs) (joinPath pp i) from rfl,
      allNodes] at hn
    rcases List.mem_cons.mp hn with rfl | hn
    · constructor
      · intro c hc
        simp only [Resource.children] at hc
        rw [assignPathsList_eq_map] at hc
        rcases List.mem_map.mp hc with ⟨c0, _, rfl⟩
        rw [assignPaths_fullPath, assignPaths_id]
        simp only [Resource.fullPath]
      · intro itf hitf
        simp only [Resource.interfaces] at hitf
        rcases List.mem_map.mp hitf with ⟨itf0, _, rfl⟩
        simp only [Resource.fullPath]
    · exact assign_nodes_childPaths_list (joinPath pp i) cs n hn

theorem assign_nodes_childPaths_list : ∀ (pp : String) (rs : List Resource),
    ∀ n ∈ allNodesList (assignPathsList pp rs),
      (∀ c ∈ n.children, c.fullPath = joinPath n.fullPath c.id) ∧
      (∀ itf ∈ n.interfaces, itf.fullPath = n.fullPath ++ "." ++ itf.id)
  | pp, [], n, hn => by simp [assignPathsList, allNodesList] at hn
  | pp, c :: cs, n, hn => by
    simp only [assignPathsList, allNodesList, List.mem_append] at hn
    rcases hn with hn | hn
    · exact assign_nodes_childPaths pp c n hn
    · exact assign_nodes_childPaths_list pp cs n hn

end

mutual

theorem assign_nodes_fullPath_ne : ∀ (pp : String) (r : Resource),
    (∀ n ∈ allNodes r, n.id ≠ "") →
    ∀ n ∈ allNodes (assignPaths pp r), n.fullPath ≠ ""
  | pp, .mk i nm ty a ifs cs fp, hids, n, hn => by
    rw [show assignPaths pp (Resource.mk i nm ty a ifs cs fp) =
        Resource.mk i nm ty a
          (ifs.map fun itf =>
            { itf with fullPath := joinPath pp i ++ "." ++ itf.id })
          (assignPathsList (joinPath pp i) cs) (joinPath pp i) from rfl,
      allNodes] at hn
    rcases List.mem_cons.mp hn with rfl | hn
    · simp only [Resource.fullPath]
      exact joinPath_ne_empty (hids _ (self_mem_allNodes _))
    · refine assign_nodes_fullPath_ne_list (joinPath pp i) cs ?_ n hn
      intro n' hn'
      refine hids n' ?_
      simp only [allNodes, List.mem_cons]
      exact Or.inr hn'

theorem assign_nodes_fullPath_ne_list : ∀ (pp : String) (rs : List Resource),
    (∀ n ∈ allNodesList rs, n.id ≠ "") →
    ∀ n ∈ allNodesList (assignPathsList pp rs), n.fullPath ≠ ""
  | pp, [], _, n, hn => by simp [assignPathsList, allNodesList] at hn
  | pp, c :: cs, hids, n, hn => by
    simp only [assignPathsList, allNodesList, List.mem_append] at hn
    rcases hn with hn | hn
    · refine assign_nodes_fullPath_ne pp c ?_ n hn
      intro n' hn'
      exact hids n' (by
        simp only [allNodesList, List.mem_append]
        exact Or.inl hn')
    · refine assign_nodes_fullPath_ne_list pp cs ?_ n hn
      intro n' hn'
      exact hids n' (by
        simp only [allNodesList, List.mem_append]
        exact Or.inr hn')

end

mutual

theorem resourceEntries_eq : ∀ (x : Resource),
    resourceEntries x = (allNodes x).map (fun n => (n.fullPath, n))
  | .mk i nm ty a ifs cs fp => by
    simp only [resourceEntries, allNodes, List.map_cons, List.cons.injEq]
    exact ⟨rfl, resourceEntriesList_eq cs⟩

theorem resourceEntriesList_eq : ∀ (rs : List Resource),
    resourceEntriesList rs = (allNodesList rs).map (fun n => (n.fullPath, n))
  | [] => rfl
  | c :: cs => by
    simp only [resourceEntriesList, allNodesList, List.map_append]
    rw [resourceEntries_eq c, resourceEntriesList_eq cs]

end

theorem dictGet_isSome_iff {α : Type} (d : List (String × α)) (k : String) :
    (dictGet d k).isSome = true ↔ k ∈ d.map (fun p => p.1) := by
  unfold dictGet
  have hmap : ∀ (o : Option (String × α)),
      (Option.map (fun p => p.2) o).isSome = o.isSome := by
    intro o; cases o <;> rfl
  rw [hmap, List.find?_isSome]
  constructor
  · rintro ⟨p, hp, hk⟩
    simp only [decide_eq_true_eq] at hk
    exact hk ▸ List.mem_map_of_mem _ hp
  · intro hk
    rcases List.mem_map.mp hk with ⟨p, hp, rfl⟩
    exact ⟨p, hp, by simp⟩

theorem dictInsert_keys {α : Type} (d : List (String × α)) (k : String)
    (v : α) :
    (dictInsert d k v).map (fun p => p.1) =
      if d.any (fun p => p.1 = k) then d.map (fun p => p.1)
      else d.map (fun p => p.1) ++ [k] := by
  unfold dictInsert
  split
  · rw [List.map_map]
    apply List.map_congr_left
    intro p _
    by_cases hp : p.1 = k
    · simp [hp]
    · simp [hp]
  · rw [List.map_append]
    rfl

theorem foldl_dictInsert_mem_keys {α : Type}
    (entries : List (String × α)) :
    ∀ (d : List (String × α)) (k : String),
      (k ∈ (entries.foldl (fun d e => dictInsert d e.1 e.2) d).map
        (fun p => p.1)) ↔
      (k ∈ d.map (fun p => p.1) ∨ k ∈ entries.map (fun p => p.1)) := by
  induction entries with
  | nil => intro d k; simp
  | cons e rest ih =>
    intro d k
    rw [List.foldl_cons, ih]
    have hkeys : k ∈ (dictInsert d e.1 e.2).map (fun p => p.1) ↔
        (k ∈ d.map (fun p => p.1) ∨ k = e.1) := by
      rw [dictInsert_keys]
      split
      · rename_i hany
        constructor
        · exact Or.inl
        · rintro (h | rfl)
          · exact h
          · rcases List.any_eq_true.mp hany with ⟨p, hp, hpk⟩
            simp only [decide_eq_true_eq] at hpk
            exact hpk ▸ List.mem_map_of_mem _ hp
      · rw [List.mem_append]
        simp
    rw [hkeys]
    simp only [List.map_cons, List.mem_cons]
    tauto

theorem mem_resourceIndex_isSome (m : ArchitectureModel) (n : Resource)
    (hn : n ∈ allModelNodes (indexModel m)) :
    (resolveResource (buildIndex m) n.fullPath).isSome = true := by
  unfold resolveResource buildIndex
  rw [dictGet_isSome_iff, foldl_dictInsert_mem_keys]
  right
  rw [resourceEntriesList_eq, List.map_map]
  refine List.mem_map.mpr ⟨n, ?_, rfl⟩
  exact hn

/-- C6: after indexing, every root's `full_path` is its bare id, every
non-root resource's `full_path` is its parent's `full_path` plus "."
plus its own id, and every interface's `full_path` is its resource's
`full_path` plus "." plus the interface id; two same-id children of
parents with distinct full paths get distinct full paths, and both are
present as keys of the resource index.  (Stated for models whose
resource ids are nonempty strings, as the YAML schema guarantees: the
Python path join tests parent-path truthiness, so an empty id at a root
would make its children behave like roots.) -/
theorem C6_full_path_invariants (m : ArchitectureModel)
    (hids : ∀ n ∈ allModelNodes m, n.id ≠ "") :
    (∀ root ∈ (indexModel m).resources, root.fullPath = root.id) ∧
    (∀ n ∈ allModelNodes (indexModel m),
      (∀ c ∈ n.children, c.fullPath = n.fullPath ++ "." ++ c.id) ∧
      (∀ itf ∈ n.interfaces,
        itf.fullPath = n.fullPath ++ "." ++ itf.id)) ∧
    (∀ n1 n2 : Resource, n1 ∈ allModelNodes (indexModel m) →
      n2 ∈ allModelNodes (indexModel m) →
      ∀ c1 ∈ n1.children, ∀ c2 ∈ n2.children,
        c1.id = c2.id → n1.fullPath ≠ n2.fullPath →
        c1.fullPath ≠ c2.fullPath ∧
        (resolveResource (buildIndex m) c1.fullPath).isSome = true ∧
        (resolveResource (buildIndex m) c2.fullPath).isSome = true) := by
  have hids' : ∀ n ∈ allNodesList m.resources, n.id ≠ "" := hids
  have hchild : ∀ n ∈ allModelNodes (indexModel m),
      (∀ c ∈ n.children, c.fullPath = n.fullPath ++ "." ++ c.id) ∧
      (∀ itf ∈ n.interfaces,
        itf.fullPath = n.fullPath ++ "." ++ itf.id) := by
    intro n hn
    have hspec := assign_nodes_childPaths_list "" m.resources n hn
    have hne : n.fullPath ≠ "" :=
      assign_nodes_fullPath_ne_list "" m.resources hids' n hn
    refine ⟨?_, hspec.2⟩
    intro c hc
    rw [hspec.1 c hc, joinPath_of_ne_empty c.id hne]
  refine ⟨?_, hchild, ?_⟩
  · intro root hroot
    show root.fullPath = root.id
    have : (indexModel m).resources = m.resources.map (assignPaths "") := by
      simp [indexModel, assignPathsList_eq_map]
    rw [this] at hroot
    rcases List.mem_map.mp hroot with ⟨r0, _, rfl⟩
    rw [assignPaths_fullPath, assignPaths_id]
    rfl
  · intro n1 n2 hn1 hn2 c1 hc1 c2 hc2 hid hfp
    have h1 := (hchild n1 hn1).1 c1 hc1
    have h2 := (hchild n2 hn2).1 c2 hc2
    constructor
    · intro heq
      apply hfp
      rw [h1, h2, hid] at heq
      exact string_append_cancel_right
        (by simpa [String.append_assoc] using heq)
    constructor
    · exact mem_resourceIndex_isSome m c1
        (mem_allNodesList_trans (assignPathsList "" m.resources) n1 c1 hn1
          (mem_allNodes_of_child hc1))
    · exact mem_resourceIndex_isSome m c2
        (mem_allNodesList_trans (assignPathsList "" m.resources) n2 c2 hn2
          (mem_allNodes_of_child hc2))

theorem C6_full_path_invariants_witness :
    (Resource.mk "c" "Nc" "service" false [] [] "p.c").fullPath ≠
      (Resource.mk "c" "Nc" "service" false [] [] "q.c").fullPath ∧
    (resolveResource (buildIndex exampleTwoParentModel)
      (Resource.mk "c" "Nc" "service" false [] [] "p.c").fullPath).isSome =
      true ∧
    (resolveResource (buildIndex exampleTwoParentModel)
      (Resource.mk "c" "Nc" "service" false [] [] "q.c").fullPath).isSome =
      true :=
  (C6_full_path_invariants exampleTwoParentModel (by decide)).2.2
    (Resource.mk "p" "Np" "service" false []
      [Resource.mk "c" "Nc" "service" false [] [] "p.c"] "p")
    (Resource.mk "q" "Nq" "service" false []
      [Resource.mk "c" "Nc" "service" false [] [] "q.c"] "q")
    (by decide) (by decide)
    (Resource.mk "c" "Nc" "service" false [] [] "p.c") (by decide)
    (Resource.mk "c" "Nc" "service" false [] [] "q.c") (by decide)
    (by decide) (by decide)

mutual

theorem walkedPaths_assign : ∀ (pp q : String) (r : Resource),
    walkedPaths pp (assignPaths q r) = walkedPaths pp r
  | pp, q, .mk i n t a ifs cs fp => by
    show walkedPaths pp (Resource.mk i n t a _
      (assignPathsList (joinPath q i) cs) _) = _
    simp only [walkedPaths, List.cons.injEq]
    exact ⟨trivial, walkedPathsList_assign (joinPath pp i) (joinPath q i) cs⟩

theorem walkedPathsList_assign : ∀ (pp q : String) (rs : List Resource),
    walkedPathsList pp (assignPathsList q rs) = walkedPathsList pp rs
  | _, _, [] => rfl
  | pp, q, c :: cs => by
    simp only [assignPathsList, walkedPathsList]
    rw [walkedPaths_assign pp q c, walkedPathsList_assign pp q cs]

end

theorem sibDupIssues_spec : ∀ (cs : List Resource) (cur : String)
    (seenIds : List String), ∀ i ∈ sibDupIssues cur cs seenIds,
      i.severity = Severity.error ∧ i.rule = some "unique-ids"
  | [], _, _, i, hi => by simp [sibDupIssues] at hi
  | c :: cs, cur, seenIds, i, hi => by
    simp only [sibDupIssues, List.mem_append] at hi
    rcases hi with hi | hi
    · split at hi
      · simp only [List.mem_singleton] at hi
        subst hi
        exact ⟨rfl, rfl⟩
      · simp at hi
    · exact sibDupIssues_spec cs cur (seenIds ++ [c.id]) i hi

mutual

theorem uniqueIdsGo_spec : ∀ (seen : List String) (pp : String)
    (r : Resource), ∀ i ∈ (uniqueIdsGo seen pp r).2,
      i.severity = Severity.error ∧ i.rule = some "unique-ids"
  | seen, pp, .mk id0 n t a ifs cs fp, i, hi => by
    simp only [uniqueIdsGo, List.mem_append] at hi
    rcases hi with (hi | hi) | hi
    · split at hi
      · simp only [List.mem_singleton] at hi
        subst hi
        exact ⟨rfl, rfl⟩
      · simp at hi
    · exact sibDupIssues_spec cs (joinPath pp id0) [] i hi
    · exact uniqueIdsGoList_spec (seen ++ [joinPath pp id0])
        (joinPath pp id0) cs i hi

theorem uniqueIdsGoList_spec : ∀ (seen : List String) (pp : String)
    (rs : List Resource), ∀ i ∈ (uniqueIdsGoList seen pp rs).2,
      i.severity = Severity.error ∧ i.rule = some "unique-ids"
  | _, _, [], i, hi => by simp [uniqueIdsGoList] at hi
  | seen, pp, c :: cs, i, hi => by
    simp only [uniqueIdsGoList, List.mem_append] at hi
    rcases hi with hi | hi
    · exact uniqueIdsGo_spec seen pp c i hi
    · exact uniqueIdsGoList_spec (uniqueIdsGo seen pp c).1 pp cs i hi

end

mutual

theorem uniqueIdsGo_seen : ∀ (seen : List String) (pp : String)
    (r : Resource) (x : String),
    (x ∈ (uniqueIdsGo seen pp r).1 ↔ x ∈ seen ∨ x ∈ walkedPaths pp r)
  | seen, pp, .mk id0 n t a ifs cs fp, x => by
    simp only [uniqueIdsGo, walkedPaths]
    rw [uniqueIdsGoList_seen (seen ++ [joinPath pp id0])
      (joinPath pp id0) cs x]
    simp only [List.mem_append, List.mem_singleton, List.mem_cons]
    tauto

theorem uniqueIdsGoList_seen : ∀ (seen : List String) (pp : String)
    (rs : List Resource) (x : String),
    (x ∈ (uniqueIdsGoList seen pp rs).1 ↔
      x ∈ seen ∨ x ∈ walkedPathsList pp rs)
  | seen, pp, [], x => by simp [uniqueIdsGoList, walkedPathsList]
  | seen, pp, c :: cs, x => by
    simp only [uniqueIdsGoList, walkedPathsList]
    rw [uniqueIdsGoList_seen (uniqueIdsGo seen pp c).1 pp cs x,
      uniqueIdsGo_seen seen pp c x]
    simp only [List.mem_append]
    tauto

end

mutual

theorem uniqueIdsGo_dup : ∀ (seen : List String) (pp : String)
    (r : Resource),
    ((∃ x ∈ walkedPaths pp r, x ∈ seen) ∨ ¬(walkedPaths pp r).Nodup) →
    (uniqueIdsGo seen pp r).2 ≠ []
  | seen, pp, .mk id0 n t a ifs cs fp, h => by
    simp only [walkedPaths] at h
    simp only [uniqueIdsGo]
    intro hnil
    rw [List.append_eq_nil, List.append_eq_nil] at hnil
    obtain ⟨⟨hdup, -⟩, hrest⟩ := hnil
    have hrestne :
        (∃ x ∈ walkedPathsList (joinPath pp id0) cs,
          x ∈ seen ++ [joinPath pp id0]) →
        False := by
      intro hx
      exact uniqueIdsGoList_dup (seen ++ [joinPath pp id0])
        (joinPath pp id0) cs (Or.inl hx) hrest
    have hrestnd : ¬(walkedPathsList (joinPath pp id0) cs).Nodup →
        False := by
      intro hx
      exact uniqueIdsGoList_dup (seen ++ [joinPath pp id0])
        (joinPath pp id0) cs (Or.inr hx) hrest
    rcases h with ⟨x, hx, hxs⟩ | hnd
    · rcases List.mem_cons.mp hx with rfl | hx'
      · rw [if_pos hxs] at hdup
        simp at hdup
      · exact hrestne ⟨x, hx', List.mem_append_left _ hxs⟩
    · by_cases hmem : joinPath pp id0 ∈
          walkedPathsList (joinPath pp id0) cs
      · exact hrestne ⟨joinPath pp id0, hmem,
          List.mem_append_right _ (List.mem_singleton.mpr rfl)⟩
      · apply hrestnd
        intro hndcs
        exact hnd (List.nodup_cons.mpr ⟨hmem, hndcs⟩)

theorem uniqueIdsGoList_dup : ∀ (seen : List String) (pp : String)
    (rs : List Resource),
    ((∃ x ∈ walkedPathsList pp rs, x ∈ seen) ∨
      ¬(walkedPathsList pp rs).Nodup) →
    (uniqueIdsGoList seen pp rs).2 ≠ []
  | seen, pp, [], h => by
    simp [walkedPathsList, List.Nodup] at h
  | seen, pp, c :: cs, h => by
    simp only [walkedPathsList] at h
    simp only [uniqueIdsGoList]
    intro hnil
    rw [List.append_eq_nil] at hnil
    obtain ⟨h1, h2⟩ := hnil
    have hr2 : ∀ x ∈ walkedPathsList pp cs,
        x ∈ (uniqueIdsGo seen pp c).1 → False := by
      intro x hx hx1
      exact uniqueIdsGoList_dup (uniqueIdsGo seen pp c).1 pp cs
        (Or.inl ⟨x, hx, hx1⟩) h2
    rcases h with ⟨x, hx, hxs⟩ | hnd
    · rcases List.mem_append.mp hx with hx' | hx'
      · exact uniqueIdsGo_dup seen pp c (Or.inl ⟨x, hx', hxs⟩) h1
      · exact hr2 x hx'
          ((uniqueIdsGo_seen seen pp c x).mpr (Or.inl hxs))
    · rw [List.nodup_append] at hnd
      by_cases hn1 : (walkedPaths pp c).Nodup
      · by_cases hn2 : (walkedPathsList pp cs).Nodup
        · have hdisj : ¬(walkedPaths pp c).Disjoint
              (walkedPathsList pp cs) :=
            fun hd => hnd ⟨hn1, hn2, hd⟩
          simp only [List.Disjoint] at hdisj
          push_neg at hdisj
          rcases hdisj with ⟨x, hx1, hx2, -⟩
          exact hr2 x hx2
            ((uniqueIdsGo_seen seen pp c x).mpr (Or.inr hx1))
        · exact uniqueIdsGoList_dup (uniqueIdsGo seen pp c).1 pp cs
            (Or.inr hn2) h2
      · exact uniqueIdsGo_dup seen pp c (Or.inr hn1) h1

end

theorem uniqueIdsIssues_ne_nil (m : ArchitectureModel)
    (h : ¬(modelWalkedPaths m).Nodup) :
    uniqueIdsIssues (indexModel m) ≠ [] := by
  apply uniqueIdsGoList_dup
  right
  show ¬(walkedPathsList "" (assignPathsList "" m.resources)).Nodup
  rw [walkedPathsList_assign]
  exact h

/-- C1 counterexample: on a model with two root resources whose
computed full paths are both "a", `_build_indexes` runs to completion —
it has no failure path at all — computing the colliding path list
["a", "a"], and the resource index ends up with the single key "a"
bound to the later-walked resource: the first entry is silently
overwritten, so indexing silently completes on a path collision instead
of aborting with a structural error before validation. -/
theorem C1_counterexample_silent_overwrite :
    modelWalkedPaths exampleDupModel = ["a", "a"] ∧
    ¬(modelWalkedPaths exampleDupModel).Nodup ∧
    (buildIndex exampleDupModel).resourceIndex.map (fun p => p.1) =
      ["a"] ∧
    resolveResource (buildIndex exampleDupModel) "a" =
      some (Resource.mk "a" "second" "service" false [] [] "a") ∧
    (allModelNodes (indexModel exampleDupModel)).length = 2 := by
  decide

/-- C1 amended: the resolver's `_build_indexes` never fails on a path
collision — it completes, the later entry overwriting the earlier index
entry — and the collision is instead detected by the validator: for
every model whose walk computes a duplicated full path, the validation
run reports an error with rule "unique-ids" and the model's valid flag
is false. -/
theorem C1_amended_collision_reported_by_validator
    (m : ArchitectureModel) (h : ¬(modelWalkedPaths m).Nodup) :
    (∃ i ∈ (validate m).errors, i.rule = some "unique-ids") ∧
    (validate m).valid = false := by
  have hne := uniqueIdsIssues_ne_nil m h
  rcases List.exists_mem_of_ne_nil _ hne with ⟨i, hi⟩
  have hspec : i.severity = Severity.error ∧
      i.rule = some "unique-ids" :=
    uniqueIdsGoList_spec [] "" (assignPathsList "" m.resources) i hi
  have hmem : i ∈ allIssues (indexModel m) (buildIndex m) :=
    List.mem_append_left _ (List.mem_append_left _ (List.mem_append_left _
      (List.mem_append_left _ (List.mem_append_left _ (List.mem_append_left _
        (List.mem_append_left _ (List.mem_append_left _ hi)))))))
  have herr : i ∈ (validate m).errors := by
    rw [validate_errors_eq]
    exact List.mem_filter.mpr ⟨hmem, by simp [isErrorIssue, hspec.1]⟩
  refine ⟨⟨i, herr, hspec.2⟩, ?_⟩
  rw [validate_valid_eq]
  cases hE : (validate m).errors with
  | nil => rw [hE] at herr; simp at herr
  | cons a l => simp

theorem C1_amended_witness :
    (∃ i ∈ (validate exampleDupModel).errors,
      i.rule = some "unique-ids") ∧
    (validate exampleDupModel).valid = false :=
  C1_amended_collision_reported_by_validator exampleDupModel (by decide)

end Arch
